import Mathlib

/-!
Verification of the jscoop cooperative-concurrency library against its
specification.  The JavaScript sources are shallowly embedded: each class
becomes a structure, each method a total Lean function on that structure.
Methods that throw return an `Option JsError` (the thrown error) or
`Except JsError`; methods whose effects include synchronously running the
immediate callbacks of a `Future` additionally return the list of callback
identifiers that ran, in execution order.  Items, results and callbacks are
represented by `Nat` identifiers so that all predicates are decidable.

Single-threaded execution means every method runs atomically between
suspension points, which is what lets the embedding be a plain function
from state to state.
-/

namespace Jscoop

/-- Error kinds of the library (spec section 7).  `futures.mjs` throws plain
`Error` objects with fixed messages for its invalid-state situations while
`future.js` has a dedicated `InvalidStateError` class; both are represented
by `invalidState`. -/
inductive JsError where
  | invalidState
  | cancelledSentinel
  | queueEmpty
  | queueFull
  | jsErr (code : Nat)
  deriving DecidableEq, Repr

/-- Settlement state of the native promise underlying a `Future`: what the
awaiters of the future can observe.  `unresolved` means awaiters stay
suspended forever (neither `_resolve` nor `_reject` was called). -/
inductive PromiseState where
  | unresolved
  | resolvedWith (v : Nat)
  | rejectedWith (e : JsError)
  deriving DecidableEq, Repr

/-- Embedding of `Future` from `src/futures.mjs` (the current Deferred).
Fields mirror the instance fields assigned in the constructor; `promise`
tracks whether `this._resolve` / `this._reject` has been invoked.
`_callbacks` holds immediate-callback identifiers in registration order.
The optional GC-finalization tracing is diagnostic only and not modelled. -/
structure Future where
  _pending : Bool
  _cancelled : Bool
  _result : Option Nat
  _error : Option JsError
  _callbacks : List Nat
  promise : PromiseState
  deriving DecidableEq, Repr

namespace Future

/-- `new Future()`. -/
def init : Future :=
  { _pending := true, _cancelled := false, _result := none, _error := none,
    _callbacks := [], promise := .unresolved }

/-- `Future.done()`. -/
def done (f : Future) : Bool := !f._pending

/-- `Future.cancelled()`. -/
def cancelledQ (f : Future) : Bool := f._cancelled

/-- `Future.cancel()` from `futures.mjs`:
if not pending return `false`; otherwise set `_cancelled`, run `_setDone()`
(which clears `_pending` and synchronously runs the immediate callbacks) and
return `true`.  Note that neither `_resolve` nor `_reject` is called, so the
underlying promise is left unsettled.  Returns
(returned boolean, new state, callbacks run in order). -/
def cancel (f : Future) : Bool × Future × List Nat :=
  if !f._pending then (false, f, [])
  else (true, { f with _cancelled := true, _pending := false }, f._callbacks)

/-- `Future.setResult(result)`: if not pending throw (`Error('Already
fulfilled')`, represented as `invalidState`); otherwise record the result,
run `_setDone()` (callbacks run synchronously) and call `_resolve(result)`.
Returns (thrown error if any, new state, callbacks run in order). -/
def setResult (f : Future) (v : Nat) : Option JsError × Future × List Nat :=
  if !f._pending then (some .invalidState, f, [])
  else (none,
        { f with _result := some v, _pending := false,
                 promise := .resolvedWith v },
        f._callbacks)

/-- `Future.setError(e)`: if not pending throw; otherwise record the error,
call `_reject(e)` and run `_setDone()`. -/
def setError (f : Future) (e : JsError) : Option JsError × Future × List Nat :=
  if !f._pending then (some .invalidState, f, [])
  else (none,
        { f with _error := some e, _pending := false,
                 promise := .rejectedWith e },
        f._callbacks)

/-- `Future.addImmediateCallback(callback)`: if already non-pending the
callback is invoked synchronously right away, otherwise it is appended to
`_callbacks`.  Returns (new state, callbacks invoked now). -/
def addImmediateCallback (f : Future) (cb : Nat) : Future × List Nat :=
  if !f._pending then (f, [cb])
  else ({ f with _callbacks := f._callbacks ++ [cb] }, [])

end Future

/-- Lifecycle states of the legacy `Future` in `src/future.js`. -/
inductive JsFutureState where
  | pendingS
  | cancelledS
  | finishedS
  deriving DecidableEq, Repr

/-- Embedding of the legacy `Future` from `src/future.js`.  It has no
immediate-callback mechanism; `cancel()` rejects the underlying promise with
a `CancelledError` sentinel but falls off the end of the function in the
pending case, returning `undefined` (modelled as `none`). -/
structure FutureJs where
  _state : JsFutureState
  promise : PromiseState
  deriving DecidableEq, Repr

namespace FutureJs

/-- `new Future()` of `future.js`. -/
def init : FutureJs := { _state := .pendingS, promise := .unresolved }

/-- `Future.cancel()` from `future.js`: on a non-pending future `return
false`; on a pending future set the state to cancelled and reject awaiters
with `new CancelledError()` -- but there is no `return` statement on that
path, so the call evaluates to `undefined` (`none`). -/
def cancel (f : FutureJs) : Option Bool × FutureJs :=
  if f._state ≠ .pendingS then (some false, f)
  else (none, { _state := .cancelledS, promise := .rejectedWith .cancelledSentinel })

end FutureJs

/-! ### C1: cancellation of a pending Deferred -/

/-- C1 counterexample.  The claim states that `cancel()` on a pending
Deferred both returns `true` and rejects awaiters with a Cancelled sentinel.
On a fresh pending `Future` from `futures.mjs`, `cancel()` returns `true`
but leaves the underlying promise unsettled (`unresolved`), so awaiters are
never rejected; and in the `future.js` variant, which does reject awaiters
with `CancelledError`, `cancel()` on a pending future returns `undefined`
rather than `true`.  Both halves of the conjunction therefore fail on a
concrete pending Deferred. -/
theorem cancel_pending_claim_cex :
    (Future.cancel Future.init).1 = true ∧
    (Future.cancel Future.init).2.1.promise = PromiseState.unresolved ∧
    (∀ e : JsError,
      (Future.cancel Future.init).2.1.promise ≠ PromiseState.rejectedWith e) ∧
    (FutureJs.cancel FutureJs.init).1 ≠ some true ∧
    (FutureJs.cancel FutureJs.init).2.promise
      = PromiseState.rejectedWith JsError.cancelledSentinel := by
  refine ⟨rfl, rfl, ?_, by decide, rfl⟩
  intro e
  simp [Future.cancel, Future.init]

/-- C1 amended: in `futures.mjs`, `cancel()` on a pending Future marks it
cancelled and done, runs its immediate callbacks synchronously in
registration order, and returns `true`, but does *not* reject awaiters --
the underlying promise stays unsettled; on a non-pending Future it returns
`false` and changes nothing.  (The legacy `future.js` variant instead
rejects awaiters with the `CancelledError` sentinel but returns `undefined`
rather than `true`.) -/
theorem cancel_pending_amended (f : Future) (g : FutureJs) :
    (f._pending = true →
      Future.cancel f
        = (true, { f with _cancelled := true, _pending := false },
           f._callbacks) ∧
      (Future.cancel f).2.1.promise = f.promise) ∧
    (f._pending = false → Future.cancel f = (false, f, [])) ∧
    (g._state = .pendingS →
      FutureJs.cancel g
        = (none, { _state := .cancelledS,
                   promise := .rejectedWith .cancelledSentinel })) ∧
    (g._state ≠ .pendingS → FutureJs.cancel g = (some false, g)) := by
  refine ⟨?_, ?_, ?_, ?_⟩
  · intro h
    constructor
    · simp [Future.cancel, h]
    · simp [Future.cancel, h]
  · intro h
    simp [Future.cancel, h]
  · intro h
    simp [FutureJs.cancel, h]
  · intro h
    simp [FutureJs.cancel, h]

/-- C1 witness: the amended theorem applied to a fresh pending `Future` and
a fresh pending legacy future. -/
theorem cancel_pending_amended_witness :
    Future.cancel Future.init
      = (true, { _pending := false, _cancelled := true, _result := none,
                 _error := none, _callbacks := [],
                 promise := .unresolved }, []) ∧
    FutureJs.cancel FutureJs.init
      = (none, { _state := .cancelledS,
                 promise := .rejectedWith .cancelledSentinel }) :=
  ⟨((cancel_pending_amended Future.init FutureJs.init).1 rfl).1,
   (cancel_pending_amended Future.init FutureJs.init).2.2.1 rfl⟩

/-! ### C7: monotonic lifecycle -/

/-- C7: lifecycle transitions are monotonic.  `setResult` or `setError` on a
`Future` that is already settled or cancelled (non-pending) throws the
invalid-state error and returns the state unchanged with no callbacks run
(so the recorded outcome stands and awaiters are not re-resolved), and
`cancel()` on a non-pending `Future` returns `false` without altering the
state. -/
theorem settle_after_done_invalid (f : Future) (v : Nat) (e : JsError)
    (h : f._pending = false) :
    Future.setResult f v = (some .invalidState, f, []) ∧
    Future.setError f e = (some .invalidState, f, []) ∧
    Future.cancel f = (false, f, []) := by
  refine ⟨?_, ?_, ?_⟩ <;> simp [Future.setResult, Future.setError, Future.cancel, h]

/-- C7 witness: a future settled with value 7 rejects a second settlement,
a fail, and a cancel, all leaving the recorded outcome intact. -/
theorem settle_after_done_invalid_witness :
    Future.setResult (Future.setResult Future.init 7).2.1 3
        = (some .invalidState, (Future.setResult Future.init 7).2.1, []) ∧
    Future.setError (Future.setResult Future.init 7).2.1 (.jsErr 0)
        = (some .invalidState, (Future.setResult Future.init 7).2.1, []) ∧
    Future.cancel (Future.setResult Future.init 7).2.1
        = (false, (Future.setResult Future.init 7).2.1, []) :=
  settle_after_done_invalid (Future.setResult Future.init 7).2.1 3 (.jsErr 0) rfl

/-! ### C8: immediate callbacks -/

/-- C8: `addImmediateCallback` on a pending Future appends the callback and
invokes nothing yet; every settle/fail/cancel transition on a pending
Future synchronously runs exactly the registered callbacks in registration
order (a callback added after others runs last); and `addImmediateCallback`
on a non-pending Future invokes the callback synchronously at registration
time, changing no state. -/
theorem immediate_callbacks_spec (f : Future) (cb : Nat) (v : Nat) (e : JsError)
    (h : f._pending = true) :
    Future.addImmediateCallback f cb
        = ({ f with _callbacks := f._callbacks ++ [cb] }, []) ∧
    (Future.setResult (Future.addImmediateCallback f cb).1 v).2.2
        = f._callbacks ++ [cb] ∧
    (Future.setError (Future.addImmediateCallback f cb).1 e).2.2
        = f._callbacks ++ [cb] ∧
    (Future.cancel (Future.addImmediateCallback f cb).1).2.2
        = f._callbacks ++ [cb] ∧
    (∀ g : Future, g._pending = false →
      Future.addImmediateCallback g cb = (g, [cb])) := by
  refine ⟨?_, ?_, ?_, ?_, ?_⟩
  · simp [Future.addImmediateCallback, h]
  · simp [Future.addImmediateCallback, Future.setResult, h]
  · simp [Future.addImmediateCallback, Future.setError, h]
  · simp [Future.addImmediateCallback, Future.cancel, h]
  · intro g hg
    simp [Future.addImmediateCallback, hg]

/-- C8 witness: instantiated on a fresh pending future with callback 5, and
on a settled future for the run-now branch. -/
theorem immediate_callbacks_spec_witness :
    (Future.setResult (Future.addImmediateCallback Future.init 5).1 9).2.2 = [5] ∧
    Future.addImmediateCallback (Future.setResult Future.init 7).2.1 5
      = ((Future.setResult Future.init 7).2.1, [5]) :=
  ⟨(immediate_callbacks_spec Future.init 5 9 (.jsErr 0) rfl).2.1,
   (immediate_callbacks_spec Future.init 5 9 (.jsErr 0) rfl).2.2.2.2
     (Future.setResult Future.init 7).2.1 rfl⟩

/-! ### Lock (`src/locks.mjs`) -/

/-- Outcome of `Lock.acquire()`: resolved immediately, or enqueued as a
waiter. -/
inductive AcquireOutcome where
  | immediate
  | queued
  deriving DecidableEq, Repr

/-- Embedding of `Lock` from `src/locks.mjs`.  `_waiting` holds the waiter
futures (as ids) in insertion order of the underlying `Set`.  Every entry is
pending: the immediate callback that `acquire()` installs deletes the future
from `_waiting` in the same synchronous step in which it becomes done,
whether it was resolved by `release()` or cancelled by its caller, so a done
future never remains in the set. -/
structure Lock where
  _locked : Bool
  _waiting : List Nat
  deriving DecidableEq, Repr

namespace Lock

/-- `new Lock()`. -/
def init : Lock := { _locked := false, _waiting := [] }

/-- `Lock.locked()`. -/
def lockedQ (l : Lock) : Bool := l._locked

/-- `Lock.acquire()`: if unlocked, set `_locked` and resolve the fresh
future immediately; otherwise append it to `_waiting` (its immediate
callback will set `_locked` when it is resolved, unless cancelled). -/
def acquire (l : Lock) (w : Nat) : AcquireOutcome × Lock :=
  if !l._locked then (.immediate, { l with _locked := true })
  else (.queued, { l with _waiting := l._waiting ++ [w] })

/-- `Lock.release()`: throw if not locked.  Otherwise clear `_locked`, then
scan `_waiting` in FIFO order for the first not-done future and resolve it;
its immediate callback synchronously re-sets `_locked` (the waiter is not
cancelled) and removes it from `_waiting`.  Since all entries are pending
the scan takes the head.  Returns the id of the waiter woken, if any. -/
def release (l : Lock) : Except JsError (Option Nat × Lock) :=
  if !l._locked then .error .invalidState
  else
    match l._waiting with
    | [] => .ok (none, { _locked := false, _waiting := [] })
    | w :: rest => .ok (some w, { _locked := true, _waiting := rest })

/-- Cancelling a queued `acquire()` future: its immediate callback sees the
cancelled state, does not touch `_locked`, and deletes the future from
`_waiting`. -/
def cancelAcquire (l : Lock) (w : Nat) : Lock :=
  { l with _waiting := l._waiting.erase w }

end Lock

/-- C3: for every Lock, an `acquire()` that completes leaves the lock
locked: the immediate path sets `_locked` before resolving, and a queued
waiter is only ever resolved inside `release()`, whose post-state is locked.
`release()` on an unlocked lock throws the invalid-state error.  `release()`
on a locked lock wakes at most the first waiter in FIFO order (`head?`),
whose immediate callback re-sets `_locked` within the same synchronous step,
so the resulting locked flag equals whether some waiter was waiting; a
cancelled acquire only detaches its waiter and leaves `_locked` alone. -/
theorem lock_acquire_release_spec (l : Lock) (w : Nat) :
    (l._locked = false →
      Lock.acquire l w = (.immediate, { _locked := true, _waiting := l._waiting })) ∧
    (l._locked = true →
      Lock.acquire l w
        = (.queued, { _locked := true, _waiting := l._waiting ++ [w] })) ∧
    (l._locked = false → Lock.release l = .error .invalidState) ∧
    (l._locked = true →
      Lock.release l
        = .ok (l._waiting.head?,
               { _locked := !l._waiting.isEmpty, _waiting := l._waiting.tail })) ∧
    (∀ w2 l2, Lock.release l = .ok (some w2, l2) → l2._locked = true) ∧
    (Lock.cancelAcquire l w)._locked = l._locked := by
  refine ⟨?_, ?_, ?_, ?_, ?_, rfl⟩
  · intro h; simp [Lock.acquire, h]
  · intro h; simp [Lock.acquire, h]
  · intro h; simp [Lock.release, h]
  · intro h; cases hw : l._waiting <;> simp [Lock.release, h, hw]
  · intro w2 l2 hrel
    by_cases h : l._locked
    · cases hw : l._waiting with
      | nil => simp [Lock.release, h, hw] at hrel
      | cons a rest =>
          simp [Lock.release, h, hw] at hrel
          simp [← hrel.2]
    · simp [Lock.release, h] at hrel

/-- C3 witness: a locked lock with waiters [4, 5] releases to waiter 4 and
stays locked; a locked lock with no waiters releases to unlocked; releasing
an unlocked lock throws; acquiring an unlocked lock locks it. -/
theorem lock_acquire_release_spec_witness :
    Lock.acquire Lock.init 9 = (.immediate, { _locked := true, _waiting := [] }) ∧
    Lock.release { _locked := true, _waiting := [4, 5] }
      = .ok (some 4, { _locked := true, _waiting := [5] }) ∧
    Lock.release { _locked := true, _waiting := [] }
      = .ok (none, { _locked := false, _waiting := [] }) ∧
    Lock.release Lock.init = .error .invalidState :=
  ⟨(lock_acquire_release_spec Lock.init 9).1 rfl,
   (lock_acquire_release_spec { _locked := true, _waiting := [4, 5] } 0).2.2.2.1 rfl,
   (lock_acquire_release_spec { _locked := true, _waiting := [] } 0).2.2.2.1 rfl,
   (lock_acquire_release_spec Lock.init 0).2.2.1 rfl⟩

/-! ### Semaphore (`src/locks.mjs`) -/

/-- A waiter future in `Semaphore._waiters`.  Unlike `Lock`, a cancelled
waiter is not removed from the list (the acquire callback only guards the
permit decrement), so entries carry a done flag that `_wakeUpNext` skips. -/
structure SemWaiter where
  id : Nat
  done : Bool
  deriving DecidableEq, Repr

/-- Embedding of `Semaphore` from `src/locks.mjs`: a non-negative permit
count and the FIFO waiter list. -/
structure Semaphore where
  _value : Nat
  _waiters : List SemWaiter
  deriving DecidableEq, Repr

namespace Semaphore

/-- `new Semaphore(value)` (the constructor rejects negative values, so the
permit count is a `Nat`). -/
def init (value : Nat) : Semaphore := { _value := value, _waiters := [] }

/-- `Semaphore.locked()`. -/
def lockedQ (s : Semaphore) : Bool := s._value == 0

/-- `Semaphore._wakeUpNext()`: shift waiters off the list until a not-done
one is found; resolve it, which synchronously runs its immediate callback
decrementing `_value` (the waiter is not cancelled).  Returns the id of the
woken waiter, if any. -/
def wakeUpNext (s : Semaphore) : Option Nat × Semaphore :=
  match s._waiters.dropWhile (·.done) with
  | [] => (none, { s with _waiters := [] })
  | w :: rest => (some w.id, { _value := s._value - 1, _waiters := rest })

/-- `Semaphore.acquire()`: if `_value` is zero, append a waiter future;
otherwise decrement `_value` and resolve immediately.  The boolean reports
whether the acquire completed without blocking. -/
def acquire (s : Semaphore) (w : Nat) : Bool × Semaphore :=
  if s._value = 0 then
    (false, { s with _waiters := s._waiters ++ [{ id := w, done := false }] })
  else (true, { s with _value := s._value - 1 })

/-- `Semaphore.release()`: unconditionally increment `_value`, then
`_wakeUpNext()`.  There is no check that a matching `acquire` ever
happened, and nothing is thrown. -/
def release (s : Semaphore) : Option Nat × Semaphore :=
  wakeUpNext { s with _value := s._value + 1 }

/-- Iterated unmatched `release()` calls (discarding the woken-id result,
as callers do). -/
def releaseIter : Nat → Semaphore → Semaphore
  | 0, s => s
  | k + 1, s => releaseIter k (release s).2

/-- The number of acquires that complete immediately (non-blocking) among
`n` successive `acquire()` calls. -/
def immediateRun : Semaphore → Nat → Nat
  | _, 0 => 0
  | s, n + 1 =>
      let r := acquire s 0
      if r.1 then 1 + immediateRun r.2 n else immediateRun r.2 n

end Semaphore

/-- With no (live) waiters, `releaseIter` just accumulates permits. -/
theorem semaphore_releaseIter_value (k : Nat) :
    ∀ v, (Semaphore.releaseIter k (Semaphore.init v))._value = v + k := by
  induction k with
  | zero => intro v; simp [Semaphore.releaseIter, Semaphore.init]
  | succ k ih =>
      intro v
      have hstep : (Semaphore.release (Semaphore.init v)).2 = Semaphore.init (v + 1) := by
        simp [Semaphore.release, Semaphore.wakeUpNext, Semaphore.init, List.dropWhile]
      rw [Semaphore.releaseIter, hstep, ih (v + 1)]
      omega

/-- While permits remain, every `acquire()` is immediate. -/
theorem semaphore_immediateRun_all (n : Nat) :
    ∀ s : Semaphore, n ≤ s._value → Semaphore.immediateRun s n = n := by
  induction n with
  | zero => intro s _; rfl
  | succ n ih =>
      intro s hn
      have hv : s._value ≠ 0 := by omega
      have hacq : Semaphore.acquire s 0 = (true, { s with _value := s._value - 1 }) := by
        simp [Semaphore.acquire, hv]
      rw [Semaphore.immediateRun, hacq]
      simp only [if_pos]
      rw [ih { s with _value := s._value - 1 } (by simp; omega)]
      omega

/-- C10: `Semaphore.release()` never fails and performs no pairing check:
on any semaphore with an empty waiter list it unconditionally increments
the permit count; `k ≥ 1` unmatched releases on `Semaphore(v)` leave the
permit count at `v + k > v`; and `n ≤ v + k` subsequent `acquire()` calls
all complete immediately, i.e. strictly more simultaneous non-blocking
acquires than the semaphore was constructed with. -/
theorem semaphore_release_unpaired (v k n : Nat) (hk : 1 ≤ k) (hn : n ≤ v + k) :
    (∀ s : Semaphore, s._waiters = [] →
      Semaphore.release s = (none, { _value := s._value + 1, _waiters := [] })) ∧
    (Semaphore.releaseIter k (Semaphore.init v))._value = v + k ∧
    v < (Semaphore.releaseIter k (Semaphore.init v))._value ∧
    Semaphore.immediateRun (Semaphore.releaseIter k (Semaphore.init v)) n = n := by
  refine ⟨?_, semaphore_releaseIter_value k v, ?_, ?_⟩
  · intro s hs
    simp [Semaphore.release, Semaphore.wakeUpNext, hs, List.dropWhile]
  · rw [semaphore_releaseIter_value k v]; omega
  · exact semaphore_immediateRun_all n _ (by rw [semaphore_releaseIter_value k v]; omega)

/-- C10 witness: one unmatched release on `Semaphore(2)` yields 3 permits,
and 3 successive acquires are all non-blocking. -/
theorem semaphore_release_unpaired_witness :
    (Semaphore.releaseIter 1 (Semaphore.init 2))._value = 3 ∧
    Semaphore.immediateRun (Semaphore.releaseIter 1 (Semaphore.init 2)) 3 = 3 ∧
    Semaphore.release (Semaphore.init 5) = (none, { _value := 6, _waiters := [] }) :=
  ⟨(semaphore_release_unpaired 2 1 3 (by decide) (by decide)).2.1,
   (semaphore_release_unpaired 2 1 3 (by decide) (by decide)).2.2.2,
   (semaphore_release_unpaired 2 1 3 (by decide) (by decide)).1 (Semaphore.init 5) rfl⟩

/-! ### Queue (`src/queues.mjs`) -/

/-- Observable state of the outer waiter `Future` returned by
`Queue.wait`/`Queue.get`: pending, resolved (with the consumed item for
`get`, with `undefined` for `wait`), or cancelled by the caller. -/
inductive WStatus where
  | pending
  | resolved (res : Option Nat)
  | cancelledW
  deriving DecidableEq, Repr

/-- An internal getter `Future` in `Queue._getters`, as created by the
`scheduleWait` closure inside `Queue.wait`: it belongs to the outer waiter
`owner`, carries the captured threshold `size` and the captured `_callback`
(`consumes = true` exactly for `get`/`getAll`-style callbacks, here the
single-item `getNoWait`), and has a done flag (`setResult` or `cancel`).
The `WeakRef` wrapping in `queues.mjs` only matters for garbage collection
diagnostics and is modelled as a strong reference (its documented
`StrongRef` fallback). -/
structure GetterE where
  owner : Nat
  gsize : Nat
  consumes : Bool
  gdone : Bool
  deriving DecidableEq, Repr

/-- Embedding of `Queue` from `src/queues.mjs`.  `waiters` records the
outer waiter futures handed out by `wait`/`get`, indexed by creation order;
it is the observation side of the model.  The `_putters` wait list is not
modelled: no claim below involves a blocked producer, and with the
modelled operations `_putters` stays empty. -/
structure Queue where
  _maxsize : Int
  _queue : List Nat
  _getters : List GetterE
  waiters : List WStatus
  _unfinishedTasks : Nat
  _finishedSet : Bool
  deriving DecidableEq, Repr

namespace Queue

/-- `new Queue(maxsize)`; the `_finished` event starts set. -/
def init (maxsize : Int) : Queue :=
  { _maxsize := maxsize, _queue := [], _getters := [], waiters := [],
    _unfinishedTasks := 0, _finishedSet := true }

/-- `get size()`. -/
def size (q : Queue) : Nat := q._queue.length

/-- `get full()`: `maxsize <= 0` (any non-positive value) means never
full, else compare the buffer length against `maxsize`. -/
def full (q : Queue) : Bool :=
  if q._maxsize ≤ 0 then false else (q.size : Int) ≥ q._maxsize

/-- The loop test at the entry of `async put(item)`: `put` suspends
(appends a putter future and awaits it) iff the queue is full. -/
def putWouldBlock (q : Queue) : Bool := q.full

/-- State of the waiter future with index `i` (out-of-range indices denote
no waiter and behave like a detached one). -/
def waiterStatus (q : Queue) (i : Nat) : WStatus :=
  q.waiters.getD i .cancelledW

/-- `Queue._wakeupNext(this._getters)` together with the immediate callback
that `scheduleWait` installed on the woken getter.  The loop shifts done
getters off the list until a live one `g` is found and resolves it; `g`'s
callback then runs synchronously: if the outer waiter was cancelled it
returns; if the buffer is still below the captured threshold it re-arms by
pushing a fresh getter (same owner, threshold and callback) onto
`_getters`; otherwise it resolves the outer waiter, running `_callback`
(`getNoWait`, which shifts the buffer head) for `get`, or passing
`undefined` for `wait`. -/
def wakeupNextGetter (q : Queue) : Queue :=
  match q._getters.dropWhile (fun e => e.gdone) with
  | [] => { q with _getters := [] }
  | g :: rest =>
      let q1 := { q with _getters := rest }
      if q1.waiterStatus g.owner = .cancelledW then q1
      else if q1.size < g.gsize then
        { q1 with _getters := rest ++ [⟨g.owner, g.gsize, g.consumes, false⟩] }
      else if g.consumes then
        { q1 with _queue := q1._queue.tail,
                  waiters := q1.waiters.set g.owner (.resolved q1._queue.head?) }
      else
        { q1 with waiters := q1.waiters.set g.owner (.resolved none) }

/-- `Queue.putNoWait(item)`: throw `QueueFull` when full, else insert at
the tail (FIFO `_put`), bump the task counter, clear the finished event and
wake the next getter. -/
def putNoWait (q : Queue) (x : Nat) : Except JsError Queue :=
  if q.full then .error .queueFull
  else .ok (wakeupNextGetter
    { q with _queue := q._queue ++ [x],
             _unfinishedTasks := q._unfinishedTasks + 1,
             _finishedSet := false })

/-- `Queue.wait({size})` (and `Queue.get` for `consumes = true`): if the
buffer already meets the threshold the waiter resolves immediately (running
`getNoWait` for `get`); otherwise the waiter is pending and `scheduleWait`
pushes its first internal getter.  Returns the new waiter's index. -/
def waitStart (q : Queue) (sz : Nat) (consumes : Bool) : Queue × Nat :=
  let i := q.waiters.length
  if q.size < sz then
    ({ q with waiters := q.waiters ++ [.pending],
              _getters := q._getters ++ [⟨i, sz, consumes, false⟩] }, i)
  else if consumes then
    ({ q with _queue := q._queue.tail,
              waiters := q.waiters ++ [.resolved q._queue.head?] }, i)
  else
    ({ q with waiters := q.waiters ++ [.resolved none] }, i)

/-- Cancelling the waiter returned by `wait`/`get`: `Future.cancel` marks
it cancelled and runs its immediate callback, which cancels the current
internal getter; the getter's own callback sees the cancelled waiter and
returns without touching the buffer.  The done getter stays in `_getters`
until a later `_wakeupNext` scan shifts past it. -/
def cancelWait (q : Queue) (i : Nat) : Queue :=
  if q.waiterStatus i = .pending then
    { q with waiters := q.waiters.set i .cancelledW,
             _getters := q._getters.map fun g =>
               if g.owner = i then { g with gdone := true } else g }
  else q

end Queue

/-- C2: behaviour of the threshold wait.  (1) `wait({size: n})` on a buffer
already holding `n` items resolves immediately and consumes nothing;
(2) below the threshold the waiter stays pending with one internal getter
enqueued; (3) `putNoWait` appends the item and hands control to the getter
wakeup scan; (4) a wakeup that arrives while the buffer is still below the
getter's threshold re-arms a fresh internal getter for the same waiter,
which stays pending; (5) a wakeup at or above the threshold resolves a
`wait`-style waiter without removing anything from the buffer; (6) for a
`get`-style waiter it consumes exactly the buffer head; (7) a wakeup scan
over only done getters (e.g. after cancellation) resolves nobody and
consumes nothing; (8) cancelling a waiter never removes an item from the
buffer, marks the waiter cancelled and marks all its internal getters done,
detaching it from the queue. -/
theorem queue_wait_threshold_spec (q : Queue) (x sz i : Nat)
    (g : GetterE) (rest : List GetterE) :
    (sz ≤ q.size →
      Queue.waitStart q sz false
        = ({ q with waiters := q.waiters ++ [.resolved none] },
           q.waiters.length)) ∧
    (q.size < sz →
      Queue.waitStart q sz false
        = ({ q with waiters := q.waiters ++ [.pending],
                    _getters := q._getters
                      ++ [⟨q.waiters.length, sz, false, false⟩] },
           q.waiters.length)) ∧
    (Queue.full q = false →
      Queue.putNoWait q x
        = .ok (Queue.wakeupNextGetter
            { q with _queue := q._queue ++ [x],
                     _unfinishedTasks := q._unfinishedTasks + 1,
                     _finishedSet := false })) ∧
    (q._getters.dropWhile (fun e => e.gdone) = g :: rest →
      Queue.waiterStatus q g.owner = .pending →
      ((q.size < g.gsize →
          Queue.wakeupNextGetter q
            = { q with _getters :=
                  rest ++ [⟨g.owner, g.gsize, g.consumes, false⟩] }) ∧
       (g.gsize ≤ q.size → g.consumes = false →
          Queue.wakeupNextGetter q
            = { q with _getters := rest,
                       waiters := q.waiters.set g.owner (.resolved none) }) ∧
       (g.gsize ≤ q.size → g.consumes = true →
          Queue.wakeupNextGetter q
            = { q with _getters := rest,
                       _queue := q._queue.tail,
                       waiters := q.waiters.set g.owner
                         (.resolved q._queue.head?) }))) ∧
    ((∀ g2 ∈ q._getters, g2.gdone = true) →
      Queue.wakeupNextGetter q = { q with _getters := [] }) ∧
    ((Queue.cancelWait q i)._queue = q._queue ∧
     (Queue.waiterStatus q i = .pending →
        Queue.waiterStatus (Queue.cancelWait q i) i = .cancelledW ∧
        ∀ g2 ∈ (Queue.cancelWait q i)._getters,
          g2.owner = i → g2.gdone = true)) := by
  refine ⟨?_, ?_, ?_, ?_, ?_, ?_, ?_⟩
  · intro h
    have : ¬ q.size < sz := by omega
    simp [Queue.waitStart, this]
  · intro h
    simp [Queue.waitStart, h]
  · intro h
    simp [Queue.putNoWait, h]
  · intro hlive hpend
    have hps : Queue.waiterStatus { q with _getters := rest } g.owner
        = WStatus.pending := hpend
    have hnc : Queue.waiterStatus { q with _getters := rest } g.owner
        ≠ WStatus.cancelledW := by
      rw [hps]; decide
    refine ⟨?_, ?_, ?_⟩
    · intro hsz
      simp only [Queue.wakeupNextGetter, hlive]
      simp [hnc, Queue.size] at hsz ⊢
      simp [hsz]
    · intro hsz hcons
      have : ¬ Queue.size { q with _getters := rest } < g.gsize := by
        simp [Queue.size] at hsz ⊢; omega
      simp only [Queue.wakeupNextGetter, hlive]
      simp [hnc, this, hcons]
    · intro hsz hcons
      have : ¬ Queue.size { q with _getters := rest } < g.gsize := by
        simp [Queue.size] at hsz ⊢; omega
      simp only [Queue.wakeupNextGetter, hlive]
      simp [hnc, this, hcons]
  · intro hall
    have : q._getters.dropWhile (fun e => e.gdone) = [] := by
      rw [List.dropWhile_eq_nil_iff]
      intro x hx
      simp [hall x hx]
    simp [Queue.wakeupNextGetter, this]
  · by_cases h : Queue.waiterStatus q i = .pending <;>
      simp [Queue.cancelWait, h]
  · intro h
    constructor
    · simp only [Queue.cancelWait, h, if_pos]
      simp only [Queue.waiterStatus] at h ⊢
      have hi : i < q.waiters.length := by
        by_contra hge
        rw [List.getD_eq_getElem?_getD, List.getElem?_eq_none (by omega)] at h
        simp at h
      simp [List.getD_eq_getElem?_getD, List.getElem?_set_self hi]
    · intro g2 hg2 hown
      simp only [Queue.cancelWait, h, if_pos, List.mem_map] at hg2
      obtain ⟨g0, _, hg0⟩ := hg2
      by_cases ho : g0.owner = i
      · rw [← hg0]; simp [ho]
      · rw [← hg0] at hown; simp [ho] at hown

/-- C2 witness: on a queue holding one item with a pending `wait({size:2})`
waiter, a wakeup re-arms; on a queue holding [7, 8] a `get`-style wakeup
consumes exactly the head; cancelling the pending waiter leaves the buffer
untouched and marks its getter done. -/
theorem queue_wait_threshold_spec_witness :
    Queue.waitStart (Queue.init 0) 2 false
      = ({ _maxsize := 0, _queue := [], _getters := [⟨0, 2, false, false⟩],
           waiters := [.pending], _unfinishedTasks := 0,
           _finishedSet := true }, 0) ∧
    Queue.wakeupNextGetter
        { _maxsize := 0, _queue := [5], _getters := [⟨0, 2, false, false⟩],
          waiters := [.pending], _unfinishedTasks := 1, _finishedSet := false }
      = { _maxsize := 0, _queue := [5], _getters := [⟨0, 2, false, false⟩],
          waiters := [.pending], _unfinishedTasks := 1,
          _finishedSet := false } ∧
    Queue.wakeupNextGetter
        { _maxsize := 0, _queue := [7, 8], _getters := [⟨0, 1, true, false⟩],
          waiters := [.pending], _unfinishedTasks := 2, _finishedSet := false }
      = { _maxsize := 0, _queue := [8], _getters := [],
          waiters := [.resolved (some 7)], _unfinishedTasks := 2,
          _finishedSet := false } ∧
    (Queue.cancelWait
        { _maxsize := 0, _queue := [5], _getters := [⟨0, 2, false, false⟩],
          waiters := [.pending], _unfinishedTasks := 1,
          _finishedSet := false } 0)._queue = [5] ∧
    Queue.waiterStatus (Queue.cancelWait
        { _maxsize := 0, _queue := [5], _getters := [⟨0, 2, false, false⟩],
          waiters := [.pending], _unfinishedTasks := 1,
          _finishedSet := false } 0) 0 = .cancelledW := by
  refine ⟨?_, ?_, ?_, ?_⟩
  · exact (queue_wait_threshold_spec (Queue.init 0) 0 2 0
      ⟨0, 2, false, false⟩ []).2.1 (by decide)
  · exact ((queue_wait_threshold_spec
      { _maxsize := 0, _queue := [5], _getters := [⟨0, 2, false, false⟩],
        waiters := [.pending], _unfinishedTasks := 1, _finishedSet := false }
      0 0 0 ⟨0, 2, false, false⟩ []).2.2.2.1 rfl rfl).1 (by decide)
  · exact (((queue_wait_threshold_spec
      { _maxsize := 0, _queue := [7, 8], _getters := [⟨0, 1, true, false⟩],
        waiters := [.pending], _unfinishedTasks := 2, _finishedSet := false }
      0 0 0 ⟨0, 1, true, false⟩ []).2.2.2.1 rfl rfl).2.2 (by decide) rfl)
  · refine ⟨?_, ?_⟩
    · exact (queue_wait_threshold_spec
        { _maxsize := 0, _queue := [5], _getters := [⟨0, 2, false, false⟩],
          waiters := [.pending], _unfinishedTasks := 1, _finishedSet := false }
        0 0 0 ⟨0, 2, false, false⟩ []).2.2.2.2.2.1
    · exact ((queue_wait_threshold_spec
        { _maxsize := 0, _queue := [5], _getters := [⟨0, 2, false, false⟩],
          waiters := [.pending], _unfinishedTasks := 1, _finishedSet := false }
        0 0 0 ⟨0, 2, false, false⟩ []).2.2.2.2.2.2 rfl).1

/-- C9: a `Queue` whose `maxsize` is any non-positive value -- zero or
negative -- is unbounded in every state: `full` is false however many items
are buffered, so `put()` never suspends (its loop test fails on entry) and
`putNoWait()` never throws `QueueFull`. -/
theorem queue_nonpositive_maxsize_unbounded (q : Queue) (x : Nat)
    (hm : q._maxsize ≤ 0) :
    Queue.full q = false ∧ Queue.putWouldBlock q = false ∧
    ∃ q2, Queue.putNoWait q x = Except.ok q2 := by
  have hfull : Queue.full q = false := by simp [Queue.full, hm]
  refine ⟨hfull, hfull,
    ⟨Queue.wakeupNextGetter
      { q with _queue := q._queue ++ [x],
               _unfinishedTasks := q._unfinishedTasks + 1,
               _finishedSet := false }, ?_⟩⟩
  simp [Queue.putNoWait, hfull]

/-- C9 witness: a queue with `maxsize = -2` already holding three items is
still not full and accepts `putNoWait`. -/
theorem queue_nonpositive_maxsize_unbounded_witness :
    Queue.full ⟨-2, [1, 2, 3], [], [], 3, false⟩ = false ∧
    Queue.putWouldBlock ⟨-2, [1, 2, 3], [], [], 3, false⟩ = false ∧
    ∃ q2, Queue.putNoWait ⟨-2, [1, 2, 3], [], [], 3, false⟩ 9 = Except.ok q2 :=
  queue_nonpositive_maxsize_unbounded ⟨-2, [1, 2, 3], [], [], 3, false⟩ 9
    (by decide)

/-! ### PriorityQueue (`src/locks.mjs` bundle, `PriorityQueue._put`/`_get`)

The buffer holds `[prio, item]` pairs kept sorted in descending key order
(the comment in `_put` notes the tail is the extraction end), and `_get`
pops the tail, i.e. the entry with the smallest key.  JavaScript
`Array.prototype.sort` is stable, and the output of a stable sort is
uniquely determined by the comparator, so the `push`-then-`sort` branch is
embedded as an insertion-based stable descending sort. -/

/-- A priority-queue entry `[prio, item]`. -/
abbrev PQEntry := Int × Nat

namespace PriorityQueue

/-- Stable descending insertion: the new entry goes after every existing
entry whose key is `≥` its own (so equal keys keep their original relative
order) and before the first entry with a strictly smaller key.  This is
what a stable descending comparator sort does with one new element pushed
at the tail of an already-sorted array. -/
def insertDesc (x : PQEntry) : List PQEntry → List PQEntry
  | [] => [x]
  | y :: ys => if x.1 ≤ y.1 then y :: insertDesc x ys else x :: y :: ys

/-- The stable descending sort
(`this._queue.sort(([a], [b]) => a < b ? 1 : a == b ? 0 : -1)`). -/
def sortDesc (l : List PQEntry) : List PQEntry :=
  l.foldl (fun acc x => insertDesc x acc) []

/-- `PriorityQueue._put(item, prio)`: push at the tail when the key is
strictly below the current minimum (the tail), unshift when strictly above
the current maximum (the head), otherwise push and stable-sort. -/
def put (q : List PQEntry) (item : Nat) (prio : Int) : List PQEntry :=
  match q.getLast? with
  | none => q ++ [(prio, item)]
  | some lastE =>
      if prio < lastE.1 then q ++ [(prio, item)]
      else if prio > (q.headD (prio, item)).1 then (prio, item) :: q
      else sortDesc (q ++ [(prio, item)])

/-- `PriorityQueue._get()`: `this._queue.pop()[1]` -- remove and return
the item of the tail entry (smallest key); `none` when empty (the source
would fault on `undefined`). -/
def get (q : List PQEntry) : Option (Nat × List PQEntry) :=
  match q.getLast? with
  | none => none
  | some e => some (e.2, q.dropLast)

/-- Fold a whole insertion sequence into an initially empty queue. -/
def putAll (l : List PQEntry) : List PQEntry :=
  l.foldl (fun q e => put q e.2 e.1) []

/-- The entry sequence produced by repeatedly popping the tail: the
reverse of the buffer (see `get_drain_step`). -/
def drain (q : List PQEntry) : List PQEntry := q.reverse

end PriorityQueue

namespace PriorityQueue

/-- `drain` is indeed the trace of repeated `_get`: one `_get` peels the
head of `drain` (up to the dropped key). -/
theorem get_drain_step (q r : List PQEntry) (x : Nat)
    (h : get q = some (x, r)) :
    ∃ p : Int, drain q = (p, x) :: drain r := by
  rcases hq : q.getLast? with _ | e
  · rw [get, hq] at h; cases h
  · rw [get, hq] at h
    have hne : q ≠ [] := by
      intro hnil; rw [hnil] at hq; cases hq
    refine ⟨e.1, ?_⟩
    obtain ⟨rfl, rfl⟩ : x = e.2 ∧ r = q.dropLast := by
      cases h; exact ⟨rfl, rfl⟩
    have hsplit : q.dropLast ++ [q.getLast hne] = q :=
      List.dropLast_append_getLast hne
    have hlast : q.getLast hne = e := by
      have := List.getLast?_eq_getLast q hne
      rw [hq] at this; cases this; rfl
    calc drain q = (q.dropLast ++ [e]).reverse := by
          rw [drain, ← hlast, hsplit]
      _ = (e.1, e.2) :: drain q.dropLast := by
          rw [List.reverse_append]; rfl

/-- `insertDesc` permutes a cons. -/
theorem insertDesc_perm (x : PQEntry) (q : List PQEntry) :
    (insertDesc x q).Perm (x :: q) := by
  induction q with
  | nil => simp [insertDesc]
  | cons y ys ih =>
      by_cases h : x.1 ≤ y.1
      · rw [insertDesc, if_pos h]
        exact (ih.cons y).trans (List.Perm.swap x y ys)
      · rw [insertDesc, if_neg h]

/-- When the new key is `≤` every key present, stable insertion appends. -/
theorem insertDesc_append (x : PQEntry) (q : List PQEntry)
    (h : ∀ y ∈ q, x.1 ≤ y.1) :
    insertDesc x q = q ++ [x] := by
  induction q with
  | nil => rfl
  | cons y ys ih =>
      rw [insertDesc, if_pos (h y (by simp))]
      rw [ih fun z hz => h z (by simp [hz])]
      rfl

/-- The head of an insertion is the inserted entry or the old head. -/
theorem insertDesc_head (x : PQEntry) (q : List PQEntry) :
    (insertDesc x q).head? = some x ∨ (insertDesc x q).head? = q.head? := by
  cases q with
  | nil => left; rfl
  | cons y ys =>
      by_cases h : x.1 ≤ y.1
      · right; rw [insertDesc, if_pos h]; rfl
      · left; rw [insertDesc, if_neg h]; rfl

/-- Stable insertion preserves descending sortedness. -/
theorem insertDesc_sorted (x : PQEntry) (q : List PQEntry)
    (hs : List.Pairwise (fun a b : PQEntry => b.1 ≤ a.1) q) :
    List.Pairwise (fun a b : PQEntry => b.1 ≤ a.1) (insertDesc x q) := by
  induction q with
  | nil => simp [insertDesc]
  | cons y ys ih =>
      obtain ⟨hy, hys⟩ := List.pairwise_cons.mp hs
      by_cases h : x.1 ≤ y.1
      · rw [insertDesc, if_pos h]
        refine List.pairwise_cons.mpr ⟨?_, ih hys⟩
        intro z hz
        have hz2 : z ∈ x :: ys := (insertDesc_perm x ys).mem_iff.mp hz
        rcases List.mem_cons.mp hz2 with rfl | hzys
        · exact h
        · exact hy z hzys
      · rw [insertDesc, if_neg h]
        refine List.pairwise_cons.mpr ⟨?_, hs⟩
        intro z hz
        rcases List.mem_cons.mp hz with hzy | hzys
        · rw [hzy]; omega
        · have := hy z hzys; omega

/-- Folding stable insertions over an already-sorted suffix is a no-op. -/
theorem foldl_insertDesc_sorted_id (l : List PQEntry) :
    ∀ acc, List.Pairwise (fun a b : PQEntry => b.1 ≤ a.1) (acc ++ l) →
      List.foldl (fun a x => insertDesc x a) acc l = acc ++ l := by
  induction l with
  | nil => intro acc _; simp
  | cons x xs ih =>
      intro acc hs
      have hstep : insertDesc x acc = acc ++ [x] := by
        refine insertDesc_append x acc ?_
        intro y hy
        have := (List.pairwise_append.mp hs).2.2 y hy x (by simp)
        exact this
      rw [List.foldl_cons, hstep, ih (acc ++ [x]) (by simpa using hs)]
      simp

/-- `sortDesc` sorts (descending, pairwise). -/
theorem sortDesc_sorted (l : List PQEntry) :
    List.Pairwise (fun a b : PQEntry => b.1 ≤ a.1) (sortDesc l) := by
  suffices h : ∀ acc, List.Pairwise (fun a b : PQEntry => b.1 ≤ a.1) acc →
      List.Pairwise (fun a b : PQEntry => b.1 ≤ a.1)
        (List.foldl (fun a x => insertDesc x a) acc l) by
    exact h [] (by simp)
  induction l with
  | nil => intro acc hacc; simpa using hacc
  | cons x xs ih =>
      intro acc hacc
      exact ih (insertDesc x acc) (insertDesc_sorted x acc hacc)

/-- In a sorted buffer every key is at least the tail key. -/
theorem sorted_last_le (q : List PQEntry) (lastE : PQEntry)
    (hs : List.Pairwise (fun a b : PQEntry => b.1 ≤ a.1) q)
    (hq : q.getLast? = some lastE) :
    ∀ y ∈ q, lastE.1 ≤ y.1 := by
  have hne : q ≠ [] := by
    intro hnil; rw [hnil] at hq; cases hq
  have hlast : q.getLast hne = lastE := by
    have := List.getLast?_eq_getLast q hne
    rw [hq] at this; cases this; rfl
  have hsplit : q.dropLast ++ [q.getLast hne] = q :=
    List.dropLast_append_getLast hne
  intro y hy
  rw [← hsplit, hlast] at hy hs
  rcases List.mem_append.mp hy with hy1 | hy2
  · exact (List.pairwise_append.mp hs).2.2 y hy1 lastE (by simp)
  · rcases List.mem_singleton.mp hy2 with rfl; exact le_refl _



/-- On a sorted buffer every `_put` branch coincides with one stable
descending insertion. -/
theorem put_eq_insertDesc (q : List PQEntry) (item : Nat) (prio : Int)
    (hs : List.Pairwise (fun a b : PQEntry => b.1 ≤ a.1) q) :
    put q item prio = insertDesc (prio, item) q := by
  cases hq : q.getLast? with
  | none =>
      have hnil : q = [] := by
        cases q with
        | nil => rfl
        | cons y ys =>
            have := List.getLast?_eq_getLast (y :: ys) (by simp)
            rw [hq] at this; cases this
      subst hnil; rfl
  | some lastE =>
      unfold put
      rw [hq]
      dsimp only
      by_cases h1 : prio < lastE.1
      · rw [if_pos h1]
        refine (insertDesc_append (prio, item) q ?_).symm
        intro y hy
        have := sorted_last_le q lastE hs hq y hy
        omega
      · rw [if_neg h1]
        cases q with
        | nil => rw [List.getLast?_nil] at hq; cases hq
        | cons y ys =>
            by_cases h2 : prio > ((y :: ys).headD (prio, item)).1
            · rw [if_pos h2]
              have h3 : ¬ prio ≤ y.1 := by
                simp only [List.headD_cons] at h2; omega
              rw [insertDesc, if_neg h3]
            · rw [if_neg h2]
              rw [sortDesc, List.foldl_append,
                  foldl_insertDesc_sorted_id (y :: ys) [] (by simpa using hs)]
              simp

/-- The whole insertion history folds to the stable descending sort. -/
theorem putAll_eq_sortDesc (l : List PQEntry) : putAll l = sortDesc l := by
  suffices h : ∀ acc, List.Pairwise (fun a b : PQEntry => b.1 ≤ a.1) acc →
      List.foldl (fun q e => put q e.2 e.1) acc l
        = List.foldl (fun a x => insertDesc x a) acc l by
    exact h [] (by simp)
  induction l with
  | nil => intro acc _; rfl
  | cons x xs ih =>
      intro acc hacc
      rw [List.foldl_cons, List.foldl_cons, put_eq_insertDesc acc x.2 x.1 hacc]
      exact ih (insertDesc (x.1, x.2) acc) (insertDesc_sorted (x.1, x.2) acc hacc)

/-- Filtering one key class commutes with a stable insertion into a sorted
buffer: an equal-key entry lands after the existing ones, a different-key
entry does not disturb the class. -/
theorem insertDesc_filter (x : PQEntry) (k : Int) (q : List PQEntry)
    (hs : List.Pairwise (fun a b : PQEntry => b.1 ≤ a.1) q) :
    (insertDesc x q).filter (fun e => e.1 == k)
      = if x.1 = k then q.filter (fun e => e.1 == k) ++ [x]
        else q.filter (fun e => e.1 == k) := by
  induction q with
  | nil =>
      by_cases hx : x.1 = k <;>
        simp [insertDesc, List.filter_cons, beq_iff_eq, hx]
  | cons y ys ih =>
      obtain ⟨hy, hys⟩ := List.pairwise_cons.mp hs
      by_cases h : x.1 ≤ y.1
      · rw [insertDesc, if_pos h, List.filter_cons, List.filter_cons, ih hys]
        by_cases hyk : y.1 = k <;> by_cases hx : x.1 = k <;>
          simp [beq_iff_eq, hyk, hx]
      · rw [insertDesc, if_neg h]
        by_cases hx : x.1 = k
        · have hnone : ∀ e ∈ y :: ys, ¬ (e.1 == k) = true := by
            intro e he
            have : e.1 ≤ y.1 := by
              rcases List.mem_cons.mp he with rfl | hys2
              · exact le_refl _
              · exact hy e hys2
            have : e.1 < k := by omega
            simp only [beq_iff_eq]
            omega
          rw [List.filter_cons, List.filter_eq_nil_iff.mpr hnone]
          simp [hx]
        · rw [List.filter_cons]
          simp [hx]

/-- Filtering one key class commutes with the stable descending sort. -/
theorem sortDesc_filter (l : List PQEntry) (k : Int) :
    (sortDesc l).filter (fun e => e.1 == k) = l.filter (fun e => e.1 == k) := by
  suffices h : ∀ acc, List.Pairwise (fun a b : PQEntry => b.1 ≤ a.1) acc →
      (List.foldl (fun a x => insertDesc x a) acc l).filter (fun e => e.1 == k)
        = acc.filter (fun e => e.1 == k) ++ l.filter (fun e => e.1 == k) by
    simpa using h [] (by simp)
  induction l with
  | nil => intro acc _; simp
  | cons x xs ih =>
      intro acc hacc
      rw [List.foldl_cons, ih (insertDesc x acc) (insertDesc_sorted x acc hacc),
          insertDesc_filter x k acc hacc, List.filter_cons]
      by_cases hx : x.1 = k <;> simp [hx]

end PriorityQueue

/-- C4 counterexample.  Two items with the same priority key 10, inserted
as item 0 then item 1, drain as item 1 first: `PriorityQueue._put` appends
the newer equal-key entry behind the older one in the descending buffer and
`_get` pops from the tail, so equal keys come out newest-first, not in
insertion order as claimed. -/
theorem pq_tie_insertion_order_cex :
    PriorityQueue.drain (PriorityQueue.putAll [(10, 0), (10, 1)])
      = [(10, 1), (10, 0)] ∧
    PriorityQueue.drain (PriorityQueue.putAll [(10, 0), (10, 1)])
      ≠ [(10, 0), (10, 1)] := by
  constructor
  · rfl
  · decide

/-- C4 amended: for every insertion sequence into an empty PriorityQueue,
the entries produced by repeatedly calling `_get` have non-decreasing
priority keys, but entries with equal keys are returned in *reverse*
insertion order (most recently inserted first), not insertion order. -/
theorem pq_drain_order (l : List PQEntry) (k : Int) :
    List.Chain' (fun a b : PQEntry => a.1 ≤ b.1)
      (PriorityQueue.drain (PriorityQueue.putAll l)) ∧
    (PriorityQueue.drain (PriorityQueue.putAll l)).filter (fun e => e.1 == k)
      = (l.filter (fun e => e.1 == k)).reverse := by
  constructor
  · rw [PriorityQueue.drain, PriorityQueue.putAll_eq_sortDesc]
    have hs := PriorityQueue.sortDesc_sorted l
    have := (List.pairwise_reverse.mpr hs).chain'
    exact this
  · rw [PriorityQueue.drain, PriorityQueue.putAll_eq_sortDesc,
        List.filter_reverse, PriorityQueue.sortDesc_filter]

/-! ### UnorderedWorkQueue (`unnamed` module, class `UnorderedWorkQueue`)

The pipeline is modelled as a labelled transition system over the microtask
segments that matter for delivery order.  A `put` assigns the next id and
records the awaitable in the pending map.  The settlement of the awaitable
with id `i` triggers `_promote(i)` (the `promise.finally` handler, running
as its own microtask in settlement order): it removes the pending entry and
calls `this._fulfilled.put({promise})`, which runs synchronously up to its
first suspension -- inserting the envelope at once when the fulfilled queue
is not full, and otherwise parking a putter future at the tail of the
queue's putter list.  A `get` takes the head envelope and, via `getNoWait`,
resolves the first parked putter; crucially, that putter's continuation
only runs on a *later* microtask, so it is a separate event here: on
resumption it re-checks `while (this.full)` and either inserts its envelope
or, if some other promote has meanwhile taken the freed slot, parks a fresh
putter at the tail of the list.  The environment chooses the order of
`settleEv`/`resumeEv` events; the JavaScript microtask queue realizes
particular interleavings, including the slot-stealing one of the
counterexample (a promote whose `finally` job was enqueued before the get
runs before the woken putter's continuation).  `settledTrace`,
`envelopeTrace` and `outputs` are observation-only fields recording the
promote order, the order envelopes enter the fulfilled queue, and the
delivery order; they influence no transition.  The producer-side putter
`Event`s (`_maybeReleasePutter`) only delay `put` completions and cannot
affect envelope order, so they are not modelled. -/

/-- Events of the UnorderedWorkQueue transition system: a completed `put`,
the `_promote` microtask of a settled awaitable, a `get` on a non-empty
fulfilled queue, and the resumption microtask of a woken putter. -/
inductive UEvent where
  | putEv
  | settleEv (id : Nat)
  | getEv
  | resumeEv
  deriving DecidableEq, Repr

/-- `Queue.full` of the fulfilled queue, as a function of the configured
bound and the current length: an absent or non-positive `maxFulfilled`
means never full (in JavaScript `undefined <= 0` and
`length >= undefined` are both false). -/
def fullB (m : Option Int) (len : Nat) : Bool :=
  match m with
  | none => false
  | some mv => if mv ≤ 0 then false else (len : Int) ≥ mv

/-- State of the `UnorderedWorkQueue` model.  `blocked` is the fulfilled
queue's putter list: promotes parked awaiting a slot, in FIFO order, none
of them yet woken (`_wakeupNext` shifts a putter off the list when it
resolves it).  `wokenQ` holds promotes whose putter future was resolved by
a `get` but whose continuation has not run yet, in wake (microtask) order. -/
structure UWQ where
  _maxFulfilled : Option Int
  _idCounter : Nat
  _pending : List Nat
  fulfilledQ : List Nat
  blocked : List Nat
  wokenQ : List Nat
  settledTrace : List Nat
  envelopeTrace : List Nat
  outputs : List Nat
  deriving DecidableEq, Repr

namespace UWQ

/-- `new UnorderedWorkQueue({maxFulfilled})`; `none` is an absent option. -/
def init (m : Option Int) : UWQ :=
  { _maxFulfilled := m, _idCounter := 0, _pending := [], fulfilledQ := [],
    blocked := [], wokenQ := [], settledTrace := [], envelopeTrace := [],
    outputs := [] }

/-- One transition.
`putEv`: `put` assigns `idCounter++` and stores the awaitable.
`settleEv id`: the `_promote(id)` microtask deletes the pending entry and
runs `this._fulfilled.put`: not full -- insert the envelope synchronously;
full -- park as the tail putter.
`getEv`: `get` pops the head envelope (no-op while the queue is empty --
the caller would simply still be awaiting); `getNoWait` then shifts the
head putter off the list and resolves it, queueing its continuation.
`resumeEv`: the longest-woken putter continuation runs `while (this.full)`
again: still full -- push a fresh putter at the tail and park; otherwise
`putNoWait` inserts its envelope. -/
def step (s : UWQ) : UEvent → UWQ
  | .putEv =>
      { s with _pending := s._pending ++ [s._idCounter],
               _idCounter := s._idCounter + 1 }
  | .settleEv id =>
      if id ∈ s._pending then
        if fullB s._maxFulfilled s.fulfilledQ.length then
          { s with _pending := s._pending.erase id,
                   settledTrace := s.settledTrace ++ [id],
                   blocked := s.blocked ++ [id] }
        else
          { s with _pending := s._pending.erase id,
                   settledTrace := s.settledTrace ++ [id],
                   fulfilledQ := s.fulfilledQ ++ [id],
                   envelopeTrace := s.envelopeTrace ++ [id] }
      else s
  | .getEv =>
      match s.fulfilledQ with
      | [] => s
      | x :: rest =>
          match s.blocked with
          | [] => { s with fulfilledQ := rest, outputs := s.outputs ++ [x] }
          | b :: brest =>
              { s with fulfilledQ := rest, outputs := s.outputs ++ [x],
                       blocked := brest, wokenQ := s.wokenQ ++ [b] }
  | .resumeEv =>
      match s.wokenQ with
      | [] => s
      | w :: wrest =>
          if fullB s._maxFulfilled s.fulfilledQ.length then
            { s with wokenQ := wrest, blocked := s.blocked ++ [w] }
          else
            { s with wokenQ := wrest, fulfilledQ := s.fulfilledQ ++ [w],
                     envelopeTrace := s.envelopeTrace ++ [w] }

/-- Run a whole event trace. -/
def run (evs : List UEvent) (s : UWQ) : UWQ := evs.foldl step s

/-- Delivery invariant: `get` results followed by the envelopes still
queued are exactly the ids in envelope-insertion order, and every settled
id is accounted for exactly once among the delivered, queued, woken and
parked ones. -/
def Inv (s : UWQ) : Prop :=
  s.outputs ++ s.fulfilledQ = s.envelopeTrace ∧
  (s.outputs ++ s.fulfilledQ ++ s.wokenQ ++ s.blocked).Perm s.settledTrace

end UWQ

/-- Moving a middle element to the back is a permutation. -/
theorem append_middle_singleton_perm (l₁ l₂ : List Nat) (a : Nat) :
    (l₁ ++ a :: l₂).Perm (l₁ ++ l₂ ++ [a]) := by
  have h := (List.perm_append_singleton a l₂).append_left l₁
  rw [List.append_assoc]
  exact h.symm

/-- Each transition preserves the delivery invariant. -/
theorem uwq_inv_step (s : UWQ) (e : UEvent) (h : UWQ.Inv s) :
    UWQ.Inv (UWQ.step s e) := by
  obtain ⟨h1, h2⟩ := h
  cases e with
  | putEv => exact ⟨h1, h2⟩
  | settleEv id =>
      by_cases hmem : id ∈ s._pending
      · by_cases hfull : fullB s._maxFulfilled s.fulfilledQ.length = true
        · refine ⟨?_, ?_⟩ <;> simp only [UWQ.step, hmem, if_true, hfull]
          · exact h1
          · have h3 := h2.append_right [id]
            refine List.Perm.trans ?_ h3
            simp [List.append_assoc]
        · have hfl : fullB s._maxFulfilled s.fulfilledQ.length = false := by
            simpa using hfull
          refine ⟨?_, ?_⟩ <;>
            simp only [UWQ.step, hmem, if_true, hfl, Bool.false_eq_true,
                       if_false]
          · rw [← h1, List.append_assoc]
          · have e1 : s.outputs ++ (s.fulfilledQ ++ [id]) ++ s.wokenQ ++ s.blocked
                = (s.outputs ++ s.fulfilledQ) ++ id :: (s.wokenQ ++ s.blocked) := by
              simp [List.append_assoc]
            have e2 : (s.outputs ++ s.fulfilledQ) ++ (s.wokenQ ++ s.blocked) ++ [id]
                = s.outputs ++ s.fulfilledQ ++ s.wokenQ ++ s.blocked ++ [id] := by
              simp [List.append_assoc]
            rw [e1]
            exact (append_middle_singleton_perm _ _ id).trans
              (by rw [e2]; exact h2.append_right [id])
      · simp only [UWQ.step, hmem, if_false]
        exact ⟨h1, h2⟩
  | getEv =>
      cases hf : s.fulfilledQ with
      | nil =>
          simp only [UWQ.step, hf]
          exact ⟨h1, h2⟩
      | cons x rest =>
          rw [hf] at h1 h2
          cases hb : s.blocked with
          | nil =>
              rw [hb] at h2
              simp only [UWQ.step, hf, hb]
              refine ⟨?_, ?_⟩
              · rw [← h1]; simp
              · refine List.Perm.trans (List.Perm.of_eq ?_) h2
                simp
          | cons b brest =>
              rw [hb] at h2
              simp only [UWQ.step, hf, hb]
              refine ⟨?_, ?_⟩
              · rw [← h1]; simp
              · have e : (s.outputs ++ [x]) ++ rest ++ (s.wokenQ ++ [b]) ++ brest
                    = s.outputs ++ x :: rest ++ s.wokenQ ++ b :: brest := by
                  simp [List.append_assoc]
                rw [e]
                exact h2
  | resumeEv =>
      cases hw : s.wokenQ with
      | nil =>
          simp only [UWQ.step, hw]
          exact ⟨h1, h2⟩
      | cons w wrest =>
          rw [hw] at h2
          by_cases hfull : fullB s._maxFulfilled s.fulfilledQ.length = true
          · simp only [UWQ.step, hw, hfull, if_true]
            refine ⟨h1, ?_⟩
            have e1 : s.outputs ++ s.fulfilledQ ++ wrest ++ (s.blocked ++ [w])
                = (s.outputs ++ s.fulfilledQ) ++ (wrest ++ s.blocked) ++ [w] := by
              simp [List.append_assoc]
            have e2 : (s.outputs ++ s.fulfilledQ) ++ w :: (wrest ++ s.blocked)
                = s.outputs ++ s.fulfilledQ ++ (w :: wrest) ++ s.blocked := by
              simp [List.append_assoc]
            rw [e1]
            exact (append_middle_singleton_perm _ _ w).symm.trans
              (by rw [e2]; exact h2)
          · have hfl : fullB s._maxFulfilled s.fulfilledQ.length = false := by
              simpa using hfull
            simp only [UWQ.step, hw, hfl, Bool.false_eq_true, if_false]
            refine ⟨?_, ?_⟩
            · rw [← h1, List.append_assoc]
            · refine List.Perm.trans (List.Perm.of_eq ?_) h2
              simp [List.append_assoc]

/-- The delivery invariant holds along any run. -/
theorem uwq_inv_run (evs : List UEvent) :
    ∀ s : UWQ, UWQ.Inv s → UWQ.Inv (UWQ.run evs s) := by
  induction evs with
  | nil => intro s h; exact h
  | cons e evs ih =>
      intro s h
      exact ih (UWQ.step s e) (uwq_inv_step s e h)

/-- When the fulfilled queue can never be full, promotes never park and
envelopes enter in settle order. -/
theorem uwq_run_unbounded (mF : Option Int)
    (hfull : ∀ len : Nat, fullB mF len = false) (evs : List UEvent) :
    ∀ s : UWQ, s._maxFulfilled = mF → s.blocked = [] → s.wokenQ = [] →
      s.envelopeTrace = s.settledTrace →
      (UWQ.run evs s)._maxFulfilled = mF ∧ (UWQ.run evs s).blocked = [] ∧
      (UWQ.run evs s).wokenQ = [] ∧
      (UWQ.run evs s).envelopeTrace = (UWQ.run evs s).settledTrace := by
  induction evs with
  | nil => intro s hm hb hw he; exact ⟨hm, hb, hw, he⟩
  | cons e evs ih =>
      intro s hm hb hw he
      have hstep : (UWQ.step s e)._maxFulfilled = mF ∧
          (UWQ.step s e).blocked = [] ∧ (UWQ.step s e).wokenQ = [] ∧
          (UWQ.step s e).envelopeTrace = (UWQ.step s e).settledTrace := by
        cases e with
        | putEv => exact ⟨hm, hb, hw, he⟩
        | settleEv id =>
            by_cases hmem : id ∈ s._pending
            · have hfl : fullB s._maxFulfilled s.fulfilledQ.length = false := by
                rw [hm]; exact hfull _
              simp only [UWQ.step, hmem, if_true, hfl, Bool.false_eq_true,
                         if_false]
              exact ⟨hm, hb, hw, by rw [he]⟩
            · simp only [UWQ.step, hmem, if_false]
              exact ⟨hm, hb, hw, he⟩
        | getEv =>
            cases hf : s.fulfilledQ with
            | nil => simp only [UWQ.step, hf]; exact ⟨hm, hb, hw, he⟩
            | cons x rest =>
                simp only [UWQ.step, hf, hb]
                exact ⟨hm, trivial, hw, he⟩
        | resumeEv =>
            simp only [UWQ.step, hw]
            exact ⟨hm, hb, trivial, he⟩
      exact ih (UWQ.step s e) hstep.1 hstep.2.1 hstep.2.2.1 hstep.2.2.2

/-- C5 counterexample.  `maxFulfilled = 1`; three awaitables are put and
settle in the order 0, 1, 2.  Promote 0 fills the queue; promote 1 parks.
Awaitable 2 settles just before the consumer's first `get`, so its
`finally` microtask sits ahead of the putter continuation that this `get`
wakes: the `get` delivers 0 and frees the slot, promote 2 runs next and
inserts into the non-full queue, and only then does the woken putter 1
resume, find the queue full again, and park a fresh putter.  The deliveries
are 0, 2, 1 although the settle order is 0, 1, 2 -- `get()` does not return
outcomes in settle order. -/
theorem uwq_settle_order_cex :
    (UWQ.run [.putEv, .putEv, .putEv, .settleEv 0, .settleEv 1, .getEv,
              .settleEv 2, .resumeEv, .getEv, .resumeEv, .getEv]
        (UWQ.init (some 1))).outputs = [0, 2, 1] ∧
    (UWQ.run [.putEv, .putEv, .putEv, .settleEv 0, .settleEv 1, .getEv,
              .settleEv 2, .resumeEv, .getEv, .resumeEv, .getEv]
        (UWQ.init (some 1))).settledTrace = [0, 1, 2] ∧
    ([0, 2, 1] : List Nat) ≠ [0, 1, 2] := by
  refine ⟨by decide, by decide, by decide⟩

/-- C5 amended: successive `get()` calls return outcomes in the order the
envelopes entered the fulfilled queue (outputs are always a prefix of the
envelope order), and every settled awaitable is accounted for exactly once
among the delivered results, the queued envelopes, and the woken or parked
promotes (a permutation of the settle order -- nothing is lost, duplicated
or fabricated).  The envelope order coincides with the settle order
whenever the fulfilled queue can never fill -- in particular when
`maxFulfilled` is absent or non-positive -- and then `get()` does return
outcomes in settle order; but when a bounded fulfilled queue fills, a
parked promote can be overtaken by a later-settling promote that steals
the freed slot (see the counterexample), so delivery order is settle order
only up to such slot races. -/
theorem uwq_envelope_order_amended (mF : Option Int) (evs : List UEvent) :
    (UWQ.run evs (UWQ.init mF)).outputs ++ (UWQ.run evs (UWQ.init mF)).fulfilledQ
      = (UWQ.run evs (UWQ.init mF)).envelopeTrace ∧
    (UWQ.run evs (UWQ.init mF)).outputs
      <+: (UWQ.run evs (UWQ.init mF)).envelopeTrace ∧
    ((UWQ.run evs (UWQ.init mF)).outputs ++ (UWQ.run evs (UWQ.init mF)).fulfilledQ
        ++ (UWQ.run evs (UWQ.init mF)).wokenQ
        ++ (UWQ.run evs (UWQ.init mF)).blocked).Perm
      (UWQ.run evs (UWQ.init mF)).settledTrace ∧
    ((∀ len : Nat, fullB mF len = false) →
      (UWQ.run evs (UWQ.init mF)).envelopeTrace
          = (UWQ.run evs (UWQ.init mF)).settledTrace ∧
      (UWQ.run evs (UWQ.init mF)).outputs
        <+: (UWQ.run evs (UWQ.init mF)).settledTrace) := by
  have hinit : UWQ.Inv (UWQ.init mF) := ⟨rfl, List.Perm.refl []⟩
  obtain ⟨h1, h2⟩ := uwq_inv_run evs (UWQ.init mF) hinit
  refine ⟨h1, ⟨(UWQ.run evs (UWQ.init mF)).fulfilledQ, h1⟩, h2, ?_⟩
  intro hfull
  have hub := uwq_run_unbounded mF hfull evs (UWQ.init mF) rfl rfl rfl rfl
  refine ⟨hub.2.2.2, ?_⟩
  rw [← hub.2.2.2]
  exact ⟨(UWQ.run evs (UWQ.init mF)).fulfilledQ, h1⟩

/-- C5 witness: with no `maxFulfilled` bound, awaitables put as 0, 1 but
settling as 1, 0 are delivered as 1, 0 -- the settle order, not the put
order. -/
theorem uwq_envelope_order_amended_witness :
    (UWQ.run [.putEv, .putEv, .settleEv 1, .settleEv 0, .getEv, .getEv]
        (UWQ.init none)).envelopeTrace
      = (UWQ.run [.putEv, .putEv, .settleEv 1, .settleEv 0, .getEv, .getEv]
        (UWQ.init none)).settledTrace ∧
    (UWQ.run [.putEv, .putEv, .settleEv 1, .settleEv 0, .getEv, .getEv]
        (UWQ.init none)).outputs
      <+: (UWQ.run [.putEv, .putEv, .settleEv 1, .settleEv 0, .getEv, .getEv]
        (UWQ.init none)).settledTrace :=
  uwq_envelope_order_amended none
    [.putEv, .putEv, .settleEv 1, .settleEv 0, .getEv, .getEv]
    |>.2.2.2 (fun _ => rfl)

/-! ### RateLimiter (`unnamed` module / `src/jobs.js`, class `RateLimiter`)

The limiter state record is `{version, first, last, count, spec}`; `version`
is only checked when loading persisted state and `spec` is fixed at
construction, so the model carries `{first, last, count}` with the spec
`{limit, period, spread}` as parameters.  Times are the monotone
millisecond clock (`Date.now()`), taken as naturals.  `wait()` first calls
`_maybeReset()`, then polls: while `count >= limit` (or, in spread mode,
while `now - last < period / limit`) it sleeps ~50 ms and calls
`_maybeReset()` again; on exit it increments `count` and sets
`last = now`.  `waitAttempt` below is one such poll iteration at clock
value `now`: either the caller is still blocked at this poll, or its
`wait()` resolves now.  (`period / limit` is floating-point in JavaScript;
it is modelled with natural division, which only matters in spread mode.) -/

/-- The mutable rate-limiter state record (minus constants). -/
structure RLState where
  first : Nat
  last : Nat
  count : Nat
  deriving DecidableEq, Repr

namespace RateLimiter

/-- `_maybeReset()`: when `now - first > period`, set `count = 0` and
`first = now` together (and persist, not modelled). -/
def maybeReset (period : Nat) (now : Nat) (st : RLState) : RLState :=
  if now - st.first > period then { st with count := 0, first := now }
  else st

/-- One poll iteration of `wait()` at clock value `now`: `_maybeReset`,
then either stay blocked (`count` at the limit, or spread spacing not yet
elapsed) or resolve, incrementing `count` and stamping `last`. -/
def waitAttempt (lim period : Nat) (spread : Bool) (now : Nat)
    (st : RLState) : RLState × Bool :=
  let st1 := maybeReset period now st
  if st1.count ≥ lim ∨ (spread = true ∧ now - st1.last < period / lim) then
    (st1, false)
  else ({ st1 with count := st1.count + 1, last := now }, true)

/-- Run poll iterations at the listed clock values, collecting the times
at which a `wait()` resolved. -/
def runWaits (lim period : Nat) (spread : Bool) :
    List Nat → RLState → RLState × List Nat
  | [], st => (st, [])
  | t :: ts, st =>
      let r := waitAttempt lim period spread t st
      let rest := runWaits lim period spread ts r.1
      (rest.1, (if r.2 then [t] else []) ++ rest.2)

end RateLimiter

/-- C6 counterexample.  With `limit = 1` and `period = 2` starting from a
fresh state (`first = 0`), a `wait()` at time 2 resolves (the window has
not expired: `2 - 0 > 2` is false) and a `wait()` at time 3 also resolves,
because `3 - 0 > 2` triggers the boundary-aligned reset `count = 0`,
`first = 3`.  Both resolutions, at times 2 and 3, fall inside the window
`[1, 3]` of length `period = 2`, so 2 > limit = 1 `wait()` calls resolve
within one window of length `period`: the sliding-window bound of the
claim is false.  (The reset-condition half of the claim is the amended
theorem's second part.) -/
theorem rl_sliding_window_cex :
    (RateLimiter.runWaits 1 2 false [2, 3] ⟨0, 0, 0⟩).2 = [2, 3] ∧
    3 - 1 ≤ 2 ∧
    1 < (RateLimiter.runWaits 1 2 false [2, 3] ⟨0, 0, 0⟩).2.length := by
  refine ⟨rfl, by decide, by decide⟩

/-- Helper: a poll at a time within the current period does not reset, and
a blocked poll changes neither `first` nor `count`. -/
theorem waitAttempt_noreset (period now : Nat)
    (st : RLState) (h : now - st.first ≤ period) :
    RateLimiter.maybeReset period now st = st := by
  rw [RateLimiter.maybeReset, if_neg (by omega)]

/-- Within one period -- while no reset fires, i.e. every poll time `t`
satisfies `t - first ≤ period` -- the number of `wait()` resolutions is
bounded by the remaining budget `limit - count`. -/
theorem runWaits_period_bound (lim period : Nat) (spread : Bool) :
    ∀ (ts : List Nat) (st : RLState),
      (∀ t ∈ ts, t - st.first ≤ period) →
      (RateLimiter.runWaits lim period spread ts st).2.length
        ≤ lim - st.count := by
  intro ts
  induction ts with
  | nil => intro st _; simp [RateLimiter.runWaits]
  | cons t ts ih =>
      intro st hts
      have hnr : RateLimiter.maybeReset period t st = st :=
        waitAttempt_noreset period t st (hts t (by simp))
      by_cases hblock :
          st.count ≥ lim ∨ (spread = true ∧ t - st.last < period / lim)
      · have hstep : RateLimiter.waitAttempt lim period spread t st
            = (st, false) := by
          rw [RateLimiter.waitAttempt]
          simp only [hnr]
          rw [if_pos hblock]
        rw [RateLimiter.runWaits, hstep]
        simpa using ih st fun u hu => hts u (by simp [hu])
      · have hstep : RateLimiter.waitAttempt lim period spread t st
            = ({ st with count := st.count + 1, last := t }, true) := by
          rw [RateLimiter.waitAttempt]
          simp only [hnr]
          rw [if_neg hblock]
        have hcnt : st.count < lim := by
          rcases Nat.lt_or_ge st.count lim with h | h
          · exact h
          · exact absurd (Or.inl h) hblock
        rw [RateLimiter.runWaits, hstep]
        have hrec : (RateLimiter.runWaits lim period spread ts
              { st with count := st.count + 1, last := t }).2.length
            ≤ lim - (st.count + 1) :=
          ih { st with count := st.count + 1, last := t }
            fun u hu => hts u (by simp [hu])
        simp only [if_true, List.singleton_append, List.length_cons]
        omega

/-- C6 amended: the count-per-period bound holds for aligned periods, not
sliding windows.  (a) As long as no reset fires -- all poll times `t` keep
`t - first ≤ period` -- at most `limit - count` further `wait()` calls
resolve, so a fresh period admits at most `limit` resolutions; across a
reset boundary up to two periods' budgets can land inside one window of
length `period` (see the counterexample).  (b) The state resets exactly
when `now - first > period`, and then `count := 0` and `first := now`
change together while `last` is kept. -/
theorem rl_period_bound_amended (lim period : Nat) (spread : Bool)
    (st0 : RLState) (ts : List Nat)
    (hts : ∀ t ∈ ts, t - st0.first ≤ period) :
    (RateLimiter.runWaits lim period spread ts st0).2.length
        ≤ lim - st0.count ∧
    (∀ (now : Nat) (st : RLState), period < now - st.first →
      RateLimiter.maybeReset period now st
        = { first := now, last := st.last, count := 0 }) ∧
    (∀ (now : Nat) (st : RLState), now - st.first ≤ period →
      RateLimiter.maybeReset period now st = st) := by
  refine ⟨runWaits_period_bound lim period spread ts st0 hts, ?_, ?_⟩
  · intro now st h
    rw [RateLimiter.maybeReset, if_pos (by omega)]
  · intro now st h
    rw [RateLimiter.maybeReset, if_neg (by omega)]

/-- C6 witness: polls at times 1, 2, 3 on a fresh `limit = 2`,
`period = 5` limiter resolve at most twice; a poll at time 6 with
`first = 0` resets count and first together; a poll at time 4 does not. -/
theorem rl_period_bound_amended_witness :
    (RateLimiter.runWaits 2 5 false [1, 2, 3] ⟨0, 0, 0⟩).2.length ≤ 2 ∧
    RateLimiter.maybeReset 5 6 ⟨0, 9, 3⟩ = ⟨6, 9, 0⟩ ∧
    RateLimiter.maybeReset 5 4 ⟨0, 9, 3⟩ = ⟨0, 9, 3⟩ :=
  ⟨(rl_period_bound_amended 2 5 false ⟨0, 0, 0⟩ [1, 2, 3] (by decide)).1,
   (rl_period_bound_amended 2 5 false ⟨0, 0, 0⟩ [1, 2, 3] (by decide)).2.1
     6 ⟨0, 9, 3⟩ (by decide),
   (rl_period_bound_amended 2 5 false ⟨0, 0, 0⟩ [1, 2, 3] (by decide)).2.2
     4 ⟨0, 9, 3⟩ (by decide)⟩

end Jscoop
